import Mathlib

/-!
Verification of the PDF table normalization pipeline and query engine of
`bot2.py` (bank-statement chatbot).  Text is modelled as `List Char`
(the sequence of code points, matching Python string operations), money
amounts as `ℚ`, and the pandas `DataFrame` produced by
`process_pdf_data` as a `Store` (column-presence flags plus a list of
rows).  Host-library behaviour (pandas / Python string methods) is
translated at the granularity the program uses it: `str.split`,
`str.strip`, `str.lower`, substring membership, `to_numeric` /
`to_datetime` with coercion are given executable models; the numeric
and date parsers cover plain decimal and `m/d/yyyy` notation, with any
other text coercing to the same failure value the library produces.
-/

attribute [local semireducible] Rat.add Rat.mul Rat.inv Rat.sub

/-- Characters of a Python string. -/
abbrev Str : Type := List Char

/-- Whitespace recognised by Python `str.strip`. -/
def isWS (c : Char) : Bool :=
  c = ' ' || c = '\t' || c = '\n' || c = '\r'

/-- Python `str.strip()`: drop whitespace from both ends. -/
def trimS (l : Str) : Str :=
  ((l.dropWhile isWS).reverse.dropWhile isWS).reverse

/-- Python `str.lower()` (per-character lowering). -/
def lowerS (l : Str) : Str := l.map Char.toLower

/-- Python `pat in s` substring membership. -/
def containsSub (pat : Str) : Str → Bool
  | [] => pat.isEmpty
  | c :: rest => pat.isPrefixOf (c :: rest) || containsSub pat rest

/-- Python `s.replace(",", "")`: remove every comma. -/
def stripCommas (l : Str) : Str := l.filter (fun c => !(c = ','))

/-- Python `s.split(sep)` for a single-character separator. -/
def splitChar (sep : Char) : Str → List Str
  | [] => [[]]
  | c :: rest =>
    if c = sep then [] :: splitChar sep rest
    else
      match splitChar sep rest with
      | [] => [[c]]
      | h :: t => (c :: h) :: t

/-- Digits-only string to a natural number. -/
def natOfDigits (l : Str) : Nat :=
  l.foldl (fun n c => 10 * n + (c.toNat - 48)) 0

/-- Model of the numeric parser behind
`pd.to_numeric(..., errors="coerce")` on the decimal notation the
pipeline feeds it: optional sign, digits, at most one point.  Text the
model rejects coerces to the failure value (`none`), exactly as the
host parser coerces its failures to NaN. -/
def parseDecimal (l : Str) : Option ℚ :=
  let (neg, body) :=
    match l with
    | '-' :: rest => (true, rest)
    | '+' :: rest => (false, rest)
    | other => (false, other)
  match splitChar '.' body with
  | [ip] =>
    if ip ≠ [] ∧ ip.all Char.isDigit then
      some ((if neg then -1 else 1) * (natOfDigits ip : ℚ))
    else none
  | [ip, fp] =>
    if ip ++ fp ≠ [] ∧ ip.all Char.isDigit ∧ fp.all Char.isDigit then
      some ((if neg then -1 else 1) *
        ((natOfDigits ip : ℚ) + (natOfDigits fp : ℚ) / (10 ^ fp.length : ℚ)))
    else none
  | _ => none

/-- A calendar date. -/
structure Date where
  y : Nat
  m : Nat
  d : Nat
deriving DecidableEq, Repr

/-- Model of `pd.to_datetime(..., errors="coerce")` restricted to the
month-first `m/d/yyyy` notation the statements use; any other text
coerces to the failure value (`none`), as the host parser coerces to
NaT. -/
def parseDate (l : Str) : Option Date :=
  match splitChar '/' (trimS l) with
  | [ms, ds, ys] =>
    if ms ≠ [] ∧ ds ≠ [] ∧ ys ≠ [] ∧
        ms.all Char.isDigit ∧ ds.all Char.isDigit ∧ ys.all Char.isDigit then
      let m := natOfDigits ms
      let d := natOfDigits ds
      if 1 ≤ m ∧ m ≤ 12 ∧ 1 ≤ d ∧ d ≤ 31 then
        some ⟨natOfDigits ys, m, d⟩
      else none
    else none
  | _ => none

/-- Debit/Credit coercion of one cell:
`pd.to_numeric(cell.astype(str).str.replace(",", "").str.strip(),
errors="coerce").fillna(0)`.  A missing cell (`None` → the string
`"None"`) and unparsable text both end as 0. -/
def coerceAmount (v : Option Str) : ℚ :=
  match v with
  | none => 0
  | some s0 => (parseDecimal (trimS (stripCommas s0))).getD 0

/-- One extracted page table: `table[0]` is the header, `table[1:]` the
data rows; a missing cell is `none` (the host extractor's `None`). -/
structure Page where
  header : List Str
  rows : List (List (Option Str))
deriving DecidableEq, Repr

/-- A RawTable: one `Page` per PDF page that had a table. -/
abbrev RawTable : Type := List Page

/-- A normalized transaction row.  The `debit`/`credit`/`date`/`ref`
fields are meaningful only when the owning `Store` has the matching
column flag set; for an absent column the field holds its default. -/
structure Row where
  date : Option Date
  debit : ℚ
  credit : ℚ
  ref : Option Str
deriving DecidableEq, Repr

/-- The normalized DataFrame: which canonical columns exist, plus the
rows in original page/row order. -/
structure Store where
  hasDate : Bool
  hasDebit : Bool
  hasCredit : Bool
  hasRef : Bool
  rows : List Row
deriving DecidableEq, Repr

/-- The store returned when no canonical role matched (`pd.DataFrame()`). -/
def emptyStore : Store := ⟨false, false, false, false, []⟩

/-- The header-deduplication loop of `process_pdf_data`:
for each position `i`, `cols.duplicated()[i]` is recomputed on the
already-mutated series, so position `i` (still holding its original
label) is compared against the processed labels to its left; a hit is
renamed to `label_i`. -/
def dedupFrom (seen : List Str) (i : Nat) : List Str → List Str
  | [] => []
  | c :: rest =>
    let c2 := if c ∈ seen then c ++ ('_' :: (Nat.repr i).toList) else c
    c2 :: dedupFrom (seen ++ [c2]) (i + 1) rest

/-- Deduplicate one page's column labels (lines 47–51 of `bot2.py`). -/
def dedupHeader (h : List Str) : List Str := dedupFrom [] 0 h

/-- Column order of `pd.concat(all_data, ignore_index=True)`: columns
of the first frame, then unseen columns of later frames in order. -/
def concatCols (rt : RawTable) : List Str :=
  (rt.map (fun p => dedupHeader p.header)).foldl
    (fun acc h => h.foldl (fun a c => if c ∈ a then a else a ++ [c]) acc) []

/-- Align one page row with the concatenated column list: a column the
page does not have, or a cell beyond the row's length, is `none`
(pandas NaN fill on concat). -/
def alignRow (h : List Str) (r : List (Option Str)) (cols : List Str) :
    List (Option Str) :=
  cols.map (fun c =>
    match h.findIdx? (fun x => decide (x = c)) with
    | some i => r.getD i none
    | none => none)

/-- Rows of the concatenated table, page order then row order. -/
def concatRows (rt : RawTable) : List (List (Option Str)) :=
  (rt.map (fun p =>
    p.rows.map (fun r => alignRow (dedupHeader p.header) r (concatCols rt)))).flatten

/-- Date-role trigger: label contains `"date"` (case-insensitive). -/
def dateP (c : Str) : Bool := containsSub ("date".toList) (lowerS c)

/-- Debit-role trigger: `"debit"` or `"withdraw"`. -/
def debitP (c : Str) : Bool :=
  containsSub ("debit".toList) (lowerS c) ||
  containsSub ("withdraw".toList) (lowerS c)

/-- Credit-role trigger: `"credit"` or `"deposit"`. -/
def creditP (c : Str) : Bool :=
  containsSub ("credit".toList) (lowerS c) ||
  containsSub ("deposit".toList) (lowerS c)

/-- Reference-role trigger: `"ref"` or `"particular"`. -/
def refP (c : Str) : Bool :=
  containsSub ("ref".toList) (lowerS c) ||
  containsSub ("particular".toList) (lowerS c)

/-- First column bound to the Date role (`next(...)` on line 63). -/
def roleDate (rt : RawTable) : Option Str := (concatCols rt).find? dateP

/-- First column bound to the Debit role (line 64). -/
def roleDebit (rt : RawTable) : Option Str := (concatCols rt).find? debitP

/-- First column bound to the Credit role (line 65). -/
def roleCredit (rt : RawTable) : Option Str := (concatCols rt).find? creditP

/-- First column bound to the Reference role (line 66). -/
def roleRef (rt : RawTable) : Option Str := (concatCols rt).find? refP

/-- After `df.rename`, the final name of a shared source column is the
LAST role that selected it (dict-literal overwrite in `rename_map`).
The numeric-coercion loop then raises on the first of `Debit`,
`Credit` that names two columns (`df[col].astype(str).str` on a
two-column selection: `AttributeError`).  `dupDebit` holds when the
Debit-selected column is also Date-selected and no later role takes
it, so `"Debit"` names two columns. -/
def dupDebit (od ob oc orf : Option Str) : Bool :=
  match ob with
  | none => false
  | some b =>
    decide (od = some b) && !(decide (oc = some b)) && !(decide (orf = some b))

/-- `"Credit"` names two columns: the Credit-selected column is also
Date- or Debit-selected and the Reference role does not take it. -/
def dupCredit (od ob oc orf : Option Str) : Bool :=
  match oc with
  | none => false
  | some c =>
    (decide (od = some c) || decide (ob = some c)) && !(decide (orf = some c))

/-- Cell of an aligned row under a selected source column. -/
def getCol (cols : List Str) (o : Option Str) (cells : List (Option Str)) :
    Option Str :=
  match o with
  | none => none
  | some name =>
    match cols.findIdx? (fun x => decide (x = name)) with
    | some i => cells.getD i none
    | none => none

/-- Build the normalized store from the concatenated table, given the
role selections (no Debit/Credit rename collision).  A role whose
selected column was renamed away by a later role (dict overwrite) is
absent from the output. -/
def buildStore (cols : List Str) (od ob oc orf : Option Str)
    (rws : List (List (Option Str))) : Store :=
  let hd : Bool :=
    match od with
    | some d =>
      !(decide (ob = some d)) && !(decide (oc = some d)) && !(decide (orf = some d))
    | none => false
  let hb : Bool :=
    match ob with
    | some b => !(decide (oc = some b)) && !(decide (orf = some b))
    | none => false
  let hc : Bool :=
    match oc with
    | some c => !(decide (orf = some c))
    | none => false
  let hr : Bool := orf.isSome
  ⟨hd, hb, hc, hr,
    rws.map (fun cells =>
      { date := if hd then (getCol cols od cells).bind parseDate else none
        debit := if hb then coerceAmount (getCol cols ob cells) else 0
        credit := if hc then coerceAmount (getCol cols oc cells) else 0
        ref := if hr then getCol cols orf cells else none })⟩

/-- `process_pdf_data` from the concatenation step on (lines 61–81):
infer roles, return an empty frame when none matched, project/rename,
coerce Debit/Credit and Date.  The error case is the uncaught
`AttributeError` raised by the coercion loop when a rename collision
leaves two `Debit` (or `Credit`) columns — the `try` block ends at the
per-page extraction, so this propagates to the caller. -/
def process_pdf_data (rt : RawTable) : Except Str Store :=
  let cols := concatCols rt
  let od := cols.find? dateP
  let ob := cols.find? debitP
  let oc := cols.find? creditP
  let orf := cols.find? refP
  if od = none ∧ ob = none ∧ oc = none ∧ orf = none then
    Except.ok emptyStore
  else if dupDebit od ob oc orf || dupCredit od ob oc orf then
    Except.error ("AttributeError: duplicated amount column after rename".toList)
  else
    Except.ok (buildStore cols od ob oc orf (concatRows rt))

/-- Python string `<` (code-point lexicographic), used by pandas when
sorting `groupby` keys. -/
def lexLt : Str → Str → Bool
  | [], [] => false
  | [], _ :: _ => true
  | _ :: _, [] => false
  | a :: as, b :: bs => if a = b then lexLt as bs else decide (a < b)

/-- Insert into an ascending list (keys are distinct at use sites). -/
def insertAsc (x : Str) : List Str → List Str
  | [] => [x]
  | y :: ys => if lexLt x y then x :: y :: ys else y :: insertAsc x ys

/-- Ascending sort of group keys, as `groupby(sort=True)` produces. -/
def sortStr (l : List Str) : List Str := l.foldr insertAsc []

/-- Keep the first occurrence of each element. -/
def firstOccs (l : List Str) : List Str :=
  l.foldl (fun acc r => if r ∈ acc then acc else acc ++ [r]) []

/-- `df.groupby("Reference")[col].sum()`: one `(key, sum)` per distinct
non-null Reference, keys in ascending order (rows with a null
Reference are dropped by `groupby`). -/
def groupRefSums (st : Store) (f : Row → ℚ) : List (Str × ℚ) :=
  (sortStr (firstOccs (st.rows.filterMap Row.ref))).map
    (fun r => (r, st.rows.foldl
      (fun a row => if row.ref = some r then a + f row else a) 0))

/-- Stable descending insertion by summed value: an element goes after
every earlier element whose value is at least as large, which is the
tie behaviour of `Series.nlargest(keep="first")`. -/
def insertDesc (x : Str × ℚ) : List (Str × ℚ) → List (Str × ℚ)
  | [] => [x]
  | y :: ys => if y.2 ≤ x.2 then x :: y :: ys else y :: insertDesc x ys

/-- Stable descending sort by summed value. -/
def sortDesc : List (Str × ℚ) → List (Str × ℚ)
  | [] => []
  | x :: xs => insertDesc x (sortDesc xs)

/-- `get_top_debits` (lines 106–110): group by Reference, sum Debit,
`nlargest(n)`, then keep the strictly positive sums. -/
def get_top_debits (st : Store) (n : Nat) : List (Str × ℚ) :=
  if st.hasDebit && st.hasRef then
    ((sortDesc (groupRefSums st Row.debit)).take n).filter
      (fun p => decide ((0 : ℚ) < p.2))
  else []

/-- `get_top_credits` (lines 112–116), symmetric on Credit. -/
def get_top_credits (st : Store) (n : Nat) : List (Str × ℚ) :=
  if st.hasCredit && st.hasRef then
    ((sortDesc (groupRefSums st Row.credit)).take n).filter
      (fun p => decide ((0 : ℚ) < p.2))
  else []

/-- The regex metacharacters of the host matcher other than `.`
(outside a character class): a pattern containing any of these is
outside the fragment this model implements. -/
def reMetaOther (c : Char) : Bool :=
  c = '^' || c = '$' || c = '*' || c = '+' || c = '?' || c = '{' || c = '}' ||
  c = '[' || c = ']' || c = '\\' || c = '|' || c = '(' || c = ')'

/-- One token of a compiled pattern: a literal character, or the `.`
wildcard (any character except newline). -/
inductive ReTok where
  | lit (c : Char)
  | dot
deriving DecidableEq, Repr

/-- Compile a pattern on the modelled regex fragment: plain characters
become literal tokens and `.` becomes the wildcard; a pattern holding
any other metacharacter compiles to `none` (outside the fragment). -/
def reParse : Str → Option (List ReTok)
  | [] => some []
  | c :: rest =>
    if c = '.' then (reParse rest).map (fun ts => ReTok.dot :: ts)
    else if reMetaOther c then none
    else (reParse rest).map (fun ts => ReTok.lit c :: ts)

/-- Match a compiled pattern against the start of a string (the window
of `re.match` at one position): tokens consume characters pointwise. -/
def reMatchHere : List ReTok → Str → Bool
  | [], _ => true
  | _ :: _, [] => false
  | t :: ts, c :: cs =>
    (match t with
     | ReTok.lit a => decide (a = c)
     | ReTok.dot => decide (c ≠ '\n')) && reMatchHere ts cs

/-- `re.search`: the compiled pattern matches at some position. -/
def reSearch (ts : List ReTok) : Str → Bool
  | [] => reMatchHere ts []
  | c :: cs => reMatchHere ts (c :: cs) || reSearch ts cs

/-- Whether a pattern is regex-literal: no metacharacter at all, so
the host matcher searches it as a plain substring. -/
def isLiteralPat (pat : Str) : Bool :=
  pat.all (fun c => !(decide (c = '.') || reMetaOther c))

/-- `search_reference` (lines 142–145):
`df["Reference"].str.lower().str.contains(term.lower(), na=False)` —
`str.contains` keeps its default `regex=True`, so the (lower-cased)
term is compiled as a Python regular expression and `re.search`-ed
against each lower-cased non-null Reference; null References never
match, and the frame is empty when the column is absent.  The model
implements the engine on the fragment of patterns built from plain
characters and the `.` wildcard; a pattern with any other
metacharacter returns an explicit failure, because the host behaviour
there (full regex rules, or `re.error` raised uncaught through the
dispatcher for an invalid pattern) lies outside the modelled fragment
— no theorem below relies on that branch. -/
def search_reference (st : Store) (term : Str) : Except Str (List Row) :=
  if st.hasRef then
    match reParse (lowerS term) with
    | some prog =>
      Except.ok (st.rows.filter (fun r =>
        match r.ref with
        | some x => reSearch prog (lowerS x)
        | none => false))
    | none => Except.error ("pattern outside the modelled regex fragment".toList)
  else Except.ok []

/-- The spec's description of the search (section 4.3: "case-insensitive
substring match on Reference; rows with absent Reference never match;
empty result if column absent"), to be compared with the source-side
`search_reference`. -/
def spec_searchReference (st : Store) (term : Str) : List Row :=
  if st.hasRef then
    st.rows.filter (fun r =>
      match r.ref with
      | some x => containsSub (lowerS term) (lowerS x)
      | none => false)
  else []

/-- The two amount columns the UI offers `filter_by_amount`. -/
inductive AmtCol where
  | debit
  | credit
deriving DecidableEq, Repr

/-- Value of the chosen amount column in a row. -/
def amtVal (c : AmtCol) (r : Row) : ℚ :=
  match c with
  | AmtCol.debit => r.debit
  | AmtCol.credit => r.credit

/-- Presence of the chosen amount column. -/
def amtPresent (st : Store) (c : AmtCol) : Bool :=
  match c with
  | AmtCol.debit => st.hasDebit
  | AmtCol.credit => st.hasCredit

/-- `filter_by_amount` (lines 147–152): the upper bound applies only
when `max_amt is not None and max_amt > 0`; otherwise only the lower
bound filters. -/
def filter_by_amount (st : Store) (minAmt : ℚ) (maxAmt : Option ℚ)
    (col : AmtCol) : List Row :=
  if amtPresent st col then
    match maxAmt with
    | some m =>
      if 0 < m then
        st.rows.filter (fun r =>
          decide (minAmt ≤ amtVal col r) && decide (amtVal col r ≤ m))
      else st.rows.filter (fun r => decide (minAmt ≤ amtVal col r))
    | none => st.rows.filter (fun r => decide (minAmt ≤ amtVal col r))
  else []

/-- Ascending order on `(year, month)` buckets. -/
def monthLe (a b : Nat × Nat) : Bool :=
  decide (a.1 < b.1) || (decide (a.1 = b.1) && decide (a.2 ≤ b.2))

/-- Insert into an ascending bucket-key list. -/
def insertMonth (x : Nat × Nat) : List (Nat × Nat) → List (Nat × Nat)
  | [] => [x]
  | y :: ys => if monthLe x y then x :: y :: ys else y :: insertMonth x ys

/-- Sort bucket keys chronologically. -/
def sortMonths (l : List (Nat × Nat)) : List (Nat × Nat) :=
  l.foldr insertMonth []

/-- Distinct `(year, month)` keys of rows with a parsed Date (rows
with NaT are dropped by `groupby`). -/
def monthKeys (st : Store) : List (Nat × Nat) :=
  sortMonths ((st.rows.filterMap (fun r => r.date.map (fun d => (d.y, d.m)))).foldl
    (fun acc k => if k ∈ acc then acc else acc ++ [k]) [])

/-- `get_monthly_summary` (lines 128–133).  When `"Date"` is present
the code runs `df.groupby("Month")[["Debit", "Credit"]].sum()`
unconditionally; if either amount column is missing this selection
raises `KeyError` (uncaught).  Otherwise: per calendar month, the
Debit and Credit sums, chronological order.  Without a Date column it
returns an empty frame. -/
def get_monthly_summary (st : Store) :
    Except Str (List ((Nat × Nat) × ℚ × ℚ)) :=
  if st.hasDate then
    if st.hasDebit && st.hasCredit then
      Except.ok ((monthKeys st).map (fun k =>
        (k,
          st.rows.foldl (fun a r =>
            if r.date.map (fun d => (d.y, d.m)) = some k then a + r.debit else a) 0,
          st.rows.foldl (fun a r =>
            if r.date.map (fun d => (d.y, d.m)) = some k then a + r.credit else a) 0)))
    else Except.error ("KeyError: Columns not found: Debit, Credit".toList)
  else Except.ok []

/-- Proleptic-Gregorian day number (days are consecutive integers;
2024-01-01, a Monday, maps to a value that is 6 mod 7). -/
def gday (dt : Date) : Nat :=
  let y := if dt.m ≤ 2 then dt.y - 1 else dt.y
  let m := if dt.m ≤ 2 then dt.m + 12 else dt.m
  365 * y + y / 4 - y / 100 + y / 400 + (153 * (m - 3) + 2) / 5 + dt.d

/-- Week bucket of `dt.to_period("W")` (weeks run Monday–Sunday, the
partition of the default `W-SUN` frequency): Mondays start a new
bucket since they are 6 mod 7 in `gday`. -/
def weekKey (dt : Date) : Nat := (gday dt + 1) / 7

/-- Ascending insert for week keys. -/
def insertWeek (x : Nat) : List Nat → List Nat
  | [] => [x]
  | y :: ys => if x ≤ y then x :: y :: ys else y :: insertWeek x ys

/-- Distinct week keys of rows with a parsed Date, chronological. -/
def weekKeysOf (st : Store) : List Nat :=
  ((st.rows.filterMap (fun r => r.date.map weekKey)).foldl
    (fun acc k => if k ∈ acc then acc else acc ++ [k]) []).foldr insertWeek []

/-- `get_weekly_summary` (lines 135–140), with the same unguarded
`[["Debit", "Credit"]]` selection as the monthly summary. -/
def get_weekly_summary (st : Store) : Except Str (List (Nat × ℚ × ℚ)) :=
  if st.hasDate then
    if st.hasDebit && st.hasCredit then
      Except.ok ((weekKeysOf st).map (fun k =>
        (k,
          st.rows.foldl (fun a r =>
            if r.date.map weekKey = some k then a + r.debit else a) 0,
          st.rows.foldl (fun a r =>
            if r.date.map weekKey = some k then a + r.credit else a) 0)))
    else Except.error ("KeyError: Columns not found: Debit, Credit".toList)
  else Except.ok []

/-- The "Process PDF" button handler (lines 96–103).  The outcome of
`process_pdf_data` on the uploaded bytes is: `Except.error` when an
uncaught exception aborts the script run, `Except.ok none` when the
function caught an extraction error and returned `None`, and
`Except.ok (some st)` when it returned a frame.  Only a non-empty
frame is stored into `st.session_state.df`. -/
def handleProcess (prev : Option Store) (outcome : Except Str (Option Store)) :
    Option Store :=
  match outcome with
  | Except.error _ => prev
  | Except.ok none => prev
  | Except.ok (some st) => if st.rows.isEmpty then prev else some st

/-- Python `"on" in q`. -/
def hasOn : Str → Bool
  | [] => false
  | [_] => false
  | a :: b :: rest => (decide (a = 'o') && decide (b = 'n')) || hasOn (b :: rest)

/-- Python `q.split("on")`: cut at each left-to-right non-overlapping
occurrence of the two-character separator. -/
def splitOnTok : Str → List Str
  | [] => [[]]
  | [c] => [[c]]
  | a :: b :: rest =>
    if decide (a = 'o') && decide (b = 'n') then [] :: splitOnTok rest
    else
      match splitOnTok (b :: rest) with
      | [] => [[a]]
      | h :: t => (a :: h) :: t

/-- Sum of the Debit column of a filtered frame
(`filtered_df.get("Debit", pd.Series()).sum()`). -/
def sumDebits (rows : List Row) : ℚ := rows.foldl (fun a r => a + r.debit) 0

/-- The substrings the `elif` chain of the dispatcher (lines 215–319)
tests before the free-text branch, in code order. -/
def fixedKeys : List Str :=
  ["highest_debit".toList, "highest_credit".toList,
   "most_transactions".toList, "total_spent".toList,
   "total_deposited".toList, "monthly_summary".toList,
   "weekly_summary".toList, "count_by_reference".toList,
   "most_frequent_reference".toList, "largest_transaction".toList,
   "filter_reference_amount".toList]

/-- Outcome of dispatching one (already lower-cased) query. -/
inductive Outcome where
  | menu (key : Str)
  | spent (term : Str) (total : ℚ)
  | noTransactions (term : Str)
  | usageHint
  | notUnderstood
deriving DecidableEq, Repr

/-- The query dispatcher (lines 214–337), at full fidelity for the
free-text branch: a fixed-key substring match wins first; otherwise,
when the query contains `"how much"`, `"spent on"` or `"spend on"`, it
is split on the literal `"on"`, the stripped last fragment becomes the
search term, and the answer is the Debit sum over the References
matching `search_reference`; a split with no remainder yields the
usage hint; anything else is not understood.  A failure of the search
(an invalid or out-of-fragment pattern — the code has no handler
around `search_reference`) propagates and aborts the run. -/
def dispatch (st : Store) (q : Str) : Except Str Outcome :=
  match fixedKeys.find? (fun k => containsSub k q) with
  | some k => Except.ok (Outcome.menu k)
  | none =>
    if containsSub ("how much".toList) q || containsSub ("spent on".toList) q ||
        containsSub ("spend on".toList) q then
      let parts := splitOnTok q
      if 1 < parts.length then
        let term := trimS (parts.getLastD [])
        match search_reference st term with
        | Except.error e => Except.error e
        | Except.ok filtered =>
          if filtered.isEmpty then Except.ok (Outcome.noTransactions term)
          else Except.ok (Outcome.spent term
            (if st.hasDebit then sumDebits filtered else 0))
      else Except.ok Outcome.usageHint
    else Except.ok Outcome.notUnderstood

/-- Scenario input of the spec: one page, header
`["Txn Date","Debit Amt","Credit Amt","Particulars"]`, one data row. -/
def rtScenario : RawTable :=
  [⟨[ "Txn Date".toList, "Debit Amt".toList, "Credit Amt".toList,
      "Particulars".toList],
    [[some ("01/01/2024".toList), some ("1,200.50".toList),
      some ("0".toList), some ("Coffee Shop".toList)]]⟩]

/-- Expected normalization of `rtScenario`. -/
def storeScenario : Store :=
  ⟨true, true, true, true,
   [⟨some ⟨2024, 1, 1⟩, 2401 / 2, 0, some ("Coffee Shop".toList)⟩]⟩

/-- A small store with Debit and Reference columns only. -/
def stMini : Store := ⟨false, true, false, false, [⟨none, 1, 0, none⟩]⟩

/-- Helper: a disjoint, duplicate-free header passes the
deduplication loop unchanged. -/
theorem dedupFrom_of_disjoint :
    ∀ (rest : List Str) (seen : List Str) (i : Nat), rest.Nodup →
      (∀ c ∈ rest, c ∉ seen) → dedupFrom seen i rest = rest := by
  intro rest
  induction rest with
  | nil => intro seen i _ _; rfl
  | cons c rest ih =>
    intro seen i hnd hdisj
    have hc : c ∉ seen := hdisj c (List.mem_cons_self c rest)
    have hrest : dedupFrom (seen ++ [c]) (i + 1) rest = rest := by
      refine ih (seen ++ [c]) (i + 1) (List.Nodup.of_cons hnd) ?_
      intro x hx hmem
      rcases List.mem_append.1 hmem with h1 | h1
      · exact hdisj x (List.mem_cons_of_mem c hx) h1
      · have hxc : x = c := by simpa using h1
        exact (List.nodup_cons.1 hnd).1 (hxc ▸ hx)
    simp only [dedupFrom, if_neg hc]
    rw [hrest]

/-- C9: column-label deduplication is idempotent — on a header whose
labels are pairwise distinct (none "has appeared before" any other),
the deduplication pass changes no label. -/
theorem c9_dedup_idempotent :
    ∀ h : List Str, h.Nodup → dedupHeader h = h := by
  intro h hnd
  exact dedupFrom_of_disjoint h [] 0 hnd (by intro c _ hc; simp at hc)

/-- Witness for C9 at a concrete already-deduplicated header. -/
theorem c9_dedup_idempotent_witness :
    dedupHeader [ "Date".toList, "Amount".toList] =
      [ "Date".toList, "Amount".toList] :=
  c9_dedup_idempotent [ "Date".toList, "Amount".toList] (by decide)

/-- C7: `filter_by_amount` on a store having the chosen column is an
inclusive range filter when `0 < max`; `max = 0` and absent `max` both
mean no upper bound, and with the default `min = 0` the `max = 0` call
returns exactly the rows with a non-negative column value. -/
theorem c7_filter_range :
    ∀ (st : Store) (minAmt : ℚ) (col : AmtCol), amtPresent st col = true →
      (∀ m : ℚ, 0 < m →
        filter_by_amount st minAmt (some m) col =
          st.rows.filter (fun r =>
            decide (minAmt ≤ amtVal col r) && decide (amtVal col r ≤ m)))
      ∧ (filter_by_amount st 0 (some 0) col =
          st.rows.filter (fun r => decide ((0 : ℚ) ≤ amtVal col r)))
      ∧ (filter_by_amount st minAmt none col =
          st.rows.filter (fun r => decide (minAmt ≤ amtVal col r))) := by
  intro st minAmt col hcol
  refine ⟨?_, ?_, ?_⟩
  · intro m hm
    simp only [filter_by_amount, hcol, if_true, if_pos hm]
  · simp only [filter_by_amount, hcol, if_true, lt_irrefl, if_false]
  · simp only [filter_by_amount, hcol, if_true]

/-- Witness for C7 at a concrete store: `max = 0` applies no upper
bound. -/
theorem c7_filter_range_witness :
    filter_by_amount stMini 0 (some 0) AmtCol.debit =
      stMini.rows.filter (fun r => decide ((0 : ℚ) ≤ amtVal AmtCol.debit r)) :=
  (c7_filter_range stMini 0 AmtCol.debit (by decide)).2.1

/-- C10 (implicit): a negative `max` falls into the same branch as
`max = 0` — `max_amt > 0` fails — so no upper bound is applied, not an
empty inclusive range. -/
theorem c10_negative_max :
    ∀ (st : Store) (minAmt m : ℚ) (col : AmtCol), m < 0 →
      filter_by_amount st minAmt (some m) col =
        filter_by_amount st minAmt (some 0) col := by
  intro st minAmt m col hm
  simp only [filter_by_amount]
  by_cases hcol : amtPresent st col = true
  · simp only [hcol, if_true, if_neg (not_lt_of_gt hm), if_neg (lt_irrefl (0 : ℚ))]
  · simp only [Bool.not_eq_true] at hcol
    simp [hcol]

/-- Witness for C10 at `max = -1`. -/
theorem c10_negative_max_witness :
    filter_by_amount stMini 0 (some (-1)) AmtCol.debit =
      filter_by_amount stMini 0 (some 0) AmtCol.debit :=
  c10_negative_max stMini 0 (-1) AmtCol.debit (by norm_num)

/-- C8: the session store is replaced only when processing succeeds
with a non-empty normalized frame; an uncaught exception, a handled
failure (`None`) and an empty frame all leave the previous store
untouched. -/
theorem c8_store_replacement :
    ∀ (prev : Option Store) (outcome : Except Str (Option Store)),
      (∀ e, outcome = Except.error e → handleProcess prev outcome = prev)
      ∧ (outcome = Except.ok none → handleProcess prev outcome = prev)
      ∧ (∀ st, outcome = Except.ok (some st) → st.rows = [] →
          handleProcess prev outcome = prev)
      ∧ (∀ st, outcome = Except.ok (some st) → st.rows ≠ [] →
          handleProcess prev outcome = some st) := by
  intro prev outcome
  refine ⟨?_, ?_, ?_, ?_⟩
  · intro e he; rw [he]; rfl
  · intro he; rw [he]; rfl
  · intro st he hrows
    rw [he]
    simp [handleProcess, List.isEmpty_iff, hrows]
  · intro st he hrows
    rw [he]
    simp [handleProcess, List.isEmpty_iff, hrows]

/-- Witness for C8: a raised exception keeps the previous store. -/
theorem c8_store_replacement_witness :
    handleProcess (some stMini) (Except.error ("boom".toList)) = some stMini :=
  (c8_store_replacement (some stMini) (Except.error ("boom".toList))).1
    ("boom".toList) rfl

/-- Helper: membership after a stable descending insert. -/
theorem mem_insertDesc :
    ∀ (l : List (Str × ℚ)) (x z : Str × ℚ),
      z ∈ insertDesc x l → z = x ∨ z ∈ l := by
  intro l
  induction l with
  | nil => intro x z hz; simpa [insertDesc] using hz
  | cons y ys ih =>
    intro x z hz
    by_cases hle : y.2 ≤ x.2
    · simp only [insertDesc, if_pos hle] at hz
      rcases List.mem_cons.1 hz with h | h
      · exact Or.inl h
      · exact Or.inr h
    · simp only [insertDesc, if_neg hle] at hz
      rcases List.mem_cons.1 hz with h | h
      · exact Or.inr (by simp [h])
      · rcases ih x z h with h1 | h1
        · exact Or.inl h1
        · exact Or.inr (List.mem_cons_of_mem y h1)

/-- Helper: a stable descending insert preserves the non-increasing
order of summed values. -/
theorem pairwise_insertDesc :
    ∀ (l : List (Str × ℚ)) (x : Str × ℚ),
      l.Pairwise (fun a b : Str × ℚ => b.2 ≤ a.2) →
      (insertDesc x l).Pairwise (fun a b : Str × ℚ => b.2 ≤ a.2) := by
  intro l
  induction l with
  | nil => intro x _; simp [insertDesc]
  | cons y ys ih =>
    intro x hp
    rcases List.pairwise_cons.1 hp with ⟨hy, hys⟩
    by_cases hle : y.2 ≤ x.2
    · simp only [insertDesc, if_pos hle]
      refine List.pairwise_cons.2 ⟨?_, hp⟩
      intro z hz
      rcases List.mem_cons.1 hz with hz | hz
      · simpa [hz] using hle
      · exact le_trans (hy z hz) hle
    · simp only [insertDesc, if_neg hle]
      refine List.pairwise_cons.2 ⟨?_, ih x hys⟩
      intro z hz
      rcases mem_insertDesc ys x z hz with h1 | h1
      · have : x.2 ≤ y.2 := le_of_not_le hle
        simpa [h1] using this
      · exact hy z h1

/-- Helper: the stable descending sort is non-increasing in the
summed values. -/
theorem pairwise_sortDesc :
    ∀ l : List (Str × ℚ),
      (sortDesc l).Pairwise (fun a b : Str × ℚ => b.2 ≤ a.2) := by
  intro l
  induction l with
  | nil => simp [sortDesc]
  | cons x xs ih => exact pairwise_insertDesc (sortDesc xs) x ih

/-- Helper: length, order, and positivity of the ranked output. -/
theorem topRanked_spec (l : List (Str × ℚ)) (n : Nat) :
    (((sortDesc l).take n).filter (fun p => decide ((0 : ℚ) < p.2))).length ≤ n
    ∧ (((sortDesc l).take n).filter
        (fun p => decide ((0 : ℚ) < p.2))).Pairwise
          (fun a b : Str × ℚ => b.2 ≤ a.2)
    ∧ ∀ p ∈ ((sortDesc l).take n).filter (fun p => decide ((0 : ℚ) < p.2)),
        (0 : ℚ) < p.2 := by
  refine ⟨?_, ?_, ?_⟩
  · exact le_trans (List.length_filter_le _ _) (List.length_take_le n _)
  · exact List.Pairwise.sublist
      ((List.filter_sublist _).trans (List.take_sublist n _)) (pairwise_sortDesc l)
  · intro p hp
    have := (List.mem_filter.1 hp).2
    exact of_decide_eq_true this

/-- The tie store: two references, each with Debit sum 5. -/
def stTie : Store :=
  ⟨false, true, false, true,
   [⟨none, 5, 0, some ("a".toList)⟩, ⟨none, 5, 0, some ("b".toList)⟩]⟩

/-- C4 counterexample: on `stTie`, `topDebits(2)` returns the two tied
sums `[("a",5),("b",5)]`, which is not strictly descending, refuting
the claim's "strictly descending" at this input. -/
theorem c4_counterexample :
    get_top_debits stTie 2 = [("a".toList, 5), ("b".toList, 5)]
    ∧ ¬ (get_top_debits stTie 2).Pairwise
        (fun a b : Str × ℚ => b.2 < a.2) := by
  constructor
  · decide
  · intro h
    have he : get_top_debits stTie 2 = [("a".toList, 5), ("b".toList, 5)] := by decide
    rw [he] at h
    rcases List.pairwise_cons.1 h with ⟨hlt, _⟩
    have := hlt ("b".toList, 5) (by simp)
    exact lt_irrefl (5 : ℚ) this

/-- C4 (amended): `topDebits(n)` / `topCredits(n)` group by Reference,
sum the column, and return at most `n` strictly-positive sums in
non-increasing (weakly descending) order; ties keep the group-key
iteration order, so equal sums may appear side by side. -/
theorem c4_top_ranking :
    ∀ (st : Store) (n : Nat),
      ((get_top_debits st n).length ≤ n
        ∧ (get_top_debits st n).Pairwise (fun a b : Str × ℚ => b.2 ≤ a.2)
        ∧ ∀ p ∈ get_top_debits st n, (0 : ℚ) < p.2)
      ∧ ((get_top_credits st n).length ≤ n
        ∧ (get_top_credits st n).Pairwise (fun a b : Str × ℚ => b.2 ≤ a.2)
        ∧ ∀ p ∈ get_top_credits st n, (0 : ℚ) < p.2) := by
  intro st n
  constructor
  · by_cases h : (st.hasDebit && st.hasRef) = true
    · simpa only [get_top_debits, h, if_true] using
        topRanked_spec (groupRefSums st Row.debit) n
    · simp [get_top_debits, h]
  · by_cases h : (st.hasCredit && st.hasRef) = true
    · simpa only [get_top_credits, h, if_true] using
        topRanked_spec (groupRefSums st Row.credit) n
    · simp [get_top_credits, h]

/-- Witness for C4's amended theorem at the tie store. -/
theorem c4_top_ranking_witness :
    (get_top_debits stTie 2).length ≤ 2 ∧ (0 : ℚ) < 5 :=
  ⟨(c4_top_ranking stTie 2).1.1,
   (c4_top_ranking stTie 2).1.2.2 ("a".toList, 5) (by decide)⟩

/-- `c` is the first element of `l` satisfying `p`. -/
def IsFirstWhere (p : Str → Bool) (l : List Str) (c : Str) : Prop :=
  ∃ pre post, l = pre ++ c :: post ∧ p c = true ∧ ∀ b ∈ pre, p b = false

/-- Helper: `List.find?` returns the first satisfying element. -/
theorem find?_isFirst :
    ∀ (p : Str → Bool) (l : List Str) (c : Str),
      l.find? p = some c → IsFirstWhere p l c := by
  intro p l
  induction l with
  | nil => intro c h; simp [List.find?] at h
  | cons a l ih =>
    intro c h
    by_cases hpa : p a = true
    · rw [List.find?_cons_of_pos _ hpa] at h
      have hac : a = c := by injection h
      exact ⟨[], l, by rw [hac]; rfl, by rw [← hac]; exact hpa, by simp⟩
    · rw [List.find?_cons_of_neg _ (by simpa using hpa)] at h
      rcases ih c h with ⟨pre, post, he, hc, hpre⟩
      refine ⟨a :: pre, post, by rw [List.cons_append, he], hc, ?_⟩
      intro b hb
      rcases List.mem_cons.1 hb with hb | hb
      · rw [hb]; exact Bool.not_eq_true _ ▸ (by simpa using hpa)
      · exact hpre b hb

/-- No two roles selected the same source column. -/
def rolesDistinct (od ob oc orf : Option Str) : Prop :=
  (∀ x, ¬(od = some x ∧ ob = some x)) ∧ (∀ x, ¬(od = some x ∧ oc = some x))
  ∧ (∀ x, ¬(od = some x ∧ orf = some x)) ∧ (∀ x, ¬(ob = some x ∧ oc = some x))
  ∧ (∀ x, ¬(ob = some x ∧ orf = some x)) ∧ (∀ x, ¬(oc = some x ∧ orf = some x))

/-- Helper: with pairwise-distinct selections the Debit column cannot
be duplicated by the rename. -/
theorem dupDebit_eq_false (od ob oc orf : Option Str)
    (h : rolesDistinct od ob oc orf) : dupDebit od ob oc orf = false := by
  rcases h with ⟨h1, _, _, _, _, _⟩
  cases hb : ob with
  | none => rfl
  | some b =>
    have : od ≠ some b := fun he => h1 b ⟨he, hb⟩
    simp [dupDebit, this]

/-- Helper: with pairwise-distinct selections the Credit column cannot
be duplicated by the rename. -/
theorem dupCredit_eq_false (od ob oc orf : Option Str)
    (h : rolesDistinct od ob oc orf) : dupCredit od ob oc orf = false := by
  rcases h with ⟨_, h2, _, h4, _, _⟩
  cases hc : oc with
  | none => rfl
  | some c =>
    have hd : od ≠ some c := fun he => h2 c ⟨he, hc⟩
    have hb : ob ≠ some c := fun he => h4 c ⟨he, hc⟩
    simp [dupCredit, hd, hb]

/-- Helper: the column-presence flags of the built store, when the
role selections are pairwise distinct. -/
theorem buildStore_flags_of_distinct (cols : List Str)
    (od ob oc orf : Option Str) (rws : List (List (Option Str)))
    (h : rolesDistinct od ob oc orf) :
    (buildStore cols od ob oc orf rws).hasDate = od.isSome
    ∧ (buildStore cols od ob oc orf rws).hasDebit = ob.isSome
    ∧ (buildStore cols od ob oc orf rws).hasCredit = oc.isSome
    ∧ (buildStore cols od ob oc orf rws).hasRef = orf.isSome := by
  rcases h with ⟨h1, h2, h3, h4, h5, h6⟩
  refine ⟨?_, ?_, ?_, ?_⟩
  · cases hd : od with
    | none => simp [buildStore]
    | some d =>
      have e1 : ob ≠ some d := fun he => h1 d ⟨hd, he⟩
      have e2 : oc ≠ some d := fun he => h2 d ⟨hd, he⟩
      have e3 : orf ≠ some d := fun he => h3 d ⟨hd, he⟩
      simp [buildStore, e1, e2, e3]
  · cases hb : ob with
    | none => simp [buildStore]
    | some b =>
      have e1 : oc ≠ some b := fun he => h4 b ⟨hb, he⟩
      have e2 : orf ≠ some b := fun he => h5 b ⟨hb, he⟩
      simp [buildStore, e1, e2]
  · cases hc : oc with
    | none => simp [buildStore]
    | some c =>
      have e1 : orf ≠ some c := fun he => h6 c ⟨hc, he⟩
      simp [buildStore, e1]
  · simp [buildStore]

/-- Helper: a role that selected nothing is absent from the built
store, whatever the other selections. -/
theorem buildStore_flags_none (cols : List Str)
    (od ob oc orf : Option Str) (rws : List (List (Option Str))) :
    (od = none → (buildStore cols od ob oc orf rws).hasDate = false)
    ∧ (ob = none → (buildStore cols od ob oc orf rws).hasDebit = false)
    ∧ (oc = none → (buildStore cols od ob oc orf rws).hasCredit = false)
    ∧ (orf = none → (buildStore cols od ob oc orf rws).hasRef = false) := by
  refine ⟨?_, ?_, ?_, ?_⟩ <;> intro h <;> simp [buildStore, h]

/-- Unfolding equation of `process_pdf_data` in terms of the named
role selections. -/
theorem process_pdf_data_eq (rt : RawTable) :
    process_pdf_data rt =
      (if roleDate rt = none ∧ roleDebit rt = none ∧ roleCredit rt = none ∧
          roleRef rt = none then
        Except.ok emptyStore
      else if dupDebit (roleDate rt) (roleDebit rt) (roleCredit rt) (roleRef rt)
          || dupCredit (roleDate rt) (roleDebit rt) (roleCredit rt) (roleRef rt) then
        Except.error ("AttributeError: duplicated amount column after rename".toList)
      else
        Except.ok (buildStore (concatCols rt) (roleDate rt) (roleDebit rt)
          (roleCredit rt) (roleRef rt) (concatRows rt))) := rfl

/-- Input refuting C1 as stated: the first column matches both the
Date and the Reference triggers. -/
def rtRefDate : RawTable :=
  [⟨[ "Ref Date".toList, "Debit Amt".toList, "Credit Amt".toList],
    [[some ("01/01/2024".toList), some ("5".toList), some ("7".toList)]]⟩]

/-- C1 counterexample: on `rtRefDate` the Date role has a matching
column (the first column, "Ref Date", contains "date"), yet the
normalized output has no Date column — the Reference role selected the
same source column and the rename-map overwrite erased the Date
binding.  So "each canonical role is bound to the first matching
column" fails at this input. -/
theorem c1_counterexample :
    roleDate rtRefDate = some ("Ref Date".toList)
    ∧ process_pdf_data rtRefDate =
        Except.ok ⟨false, true, true, true,
          [⟨none, 5, 7, some ("01/01/2024".toList)⟩]⟩
    ∧ (⟨false, true, true, true,
        [⟨none, 5, 7, some ("01/01/2024".toList)⟩]⟩ : Store).hasDate = false := by
  refine ⟨by decide, by rfl, rfl⟩

/-- C1 (amended): each canonical role selects the FIRST column (in
table order) whose label case-insensitively contains one of its
trigger substrings; a role with no matching column is absent from the
output; if no role matched at all the result is an empty store; and
provided no two roles select the same column, every selecting role is
bound (present) in the output.  (When selections collide, the last
colliding role wins the column and the earlier ones are absent, as
`c1_counterexample` shows.) -/
theorem c1_role_binding :
    ∀ (rt : RawTable) (st : Store) (c : Str),
      ((roleDate rt = some c → IsFirstWhere dateP (concatCols rt) c)
        ∧ (roleDebit rt = some c → IsFirstWhere debitP (concatCols rt) c)
        ∧ (roleCredit rt = some c → IsFirstWhere creditP (concatCols rt) c)
        ∧ (roleRef rt = some c → IsFirstWhere refP (concatCols rt) c))
      ∧ (rolesDistinct (roleDate rt) (roleDebit rt) (roleCredit rt) (roleRef rt) →
          process_pdf_data rt = Except.ok st →
          st.hasDate = (roleDate rt).isSome ∧ st.hasDebit = (roleDebit rt).isSome
          ∧ st.hasCredit = (roleCredit rt).isSome ∧ st.hasRef = (roleRef rt).isSome)
      ∧ (process_pdf_data rt = Except.ok st →
          (roleDate rt = none → st.hasDate = false)
          ∧ (roleDebit rt = none → st.hasDebit = false)
          ∧ (roleCredit rt = none → st.hasCredit = false)
          ∧ (roleRef rt = none → st.hasRef = false))
      ∧ (roleDate rt = none → roleDebit rt = none → roleCredit rt = none →
          roleRef rt = none → process_pdf_data rt = Except.ok emptyStore) := by
  intro rt st c
  refine ⟨⟨fun h => find?_isFirst _ _ _ h, fun h => find?_isFirst _ _ _ h,
    fun h => find?_isFirst _ _ _ h, fun h => find?_isFirst _ _ _ h⟩, ?_, ?_, ?_⟩
  · intro hdist hok
    rw [process_pdf_data_eq] at hok
    by_cases hall : (roleDate rt = none ∧ roleDebit rt = none ∧
        roleCredit rt = none ∧ roleRef rt = none)
    · rw [if_pos hall] at hok
      have hst : emptyStore = st := by injection hok
      rw [← hst]
      simp [emptyStore, hall.1, hall.2.1, hall.2.2.1, hall.2.2.2]
    · rw [if_neg hall,
        dupDebit_eq_false _ _ _ _ hdist, dupCredit_eq_false _ _ _ _ hdist] at hok
      simp only [Bool.or_self, Bool.false_eq_true, if_false] at hok
      have hst : buildStore (concatCols rt) (roleDate rt) (roleDebit rt)
          (roleCredit rt) (roleRef rt) (concatRows rt) = st := by injection hok
      rw [← hst]
      exact buildStore_flags_of_distinct _ _ _ _ _ _ hdist
  · intro hok
    rw [process_pdf_data_eq] at hok
    by_cases hall : (roleDate rt = none ∧ roleDebit rt = none ∧
        roleCredit rt = none ∧ roleRef rt = none)
    · rw [if_pos hall] at hok
      have hst : emptyStore = st := by injection hok
      rw [← hst]
      exact ⟨fun _ => rfl, fun _ => rfl, fun _ => rfl, fun _ => rfl⟩
    · rw [if_neg hall] at hok
      by_cases hdup : (dupDebit (roleDate rt) (roleDebit rt) (roleCredit rt)
          (roleRef rt) || dupCredit (roleDate rt) (roleDebit rt) (roleCredit rt)
          (roleRef rt)) = true
      · rw [if_pos hdup] at hok
        exact absurd hok (by simp)
      · rw [if_neg hdup] at hok
        have hst : buildStore (concatCols rt) (roleDate rt) (roleDebit rt)
            (roleCredit rt) (roleRef rt) (concatRows rt) = st := by injection hok
        rw [← hst]
        exact buildStore_flags_none _ _ _ _ _ _
  · intro h1 h2 h3 h4
    rw [process_pdf_data_eq, if_pos ⟨h1, h2, h3, h4⟩]

/-- Witness for C1's amended theorem: on the spec's scenario header
the Date role is bound to the first matching column, "Txn Date". -/
theorem c1_role_binding_witness :
    IsFirstWhere dateP (concatCols rtScenario) ("Txn Date".toList) :=
  (c1_role_binding rtScenario emptyStore ("Txn Date".toList)).1.1 (by decide)

/-- Input on which normalization raises: one column serves both the
Debit and the Credit role. -/
def rtSharedAmount : RawTable :=
  [⟨[ "Txn Date".toList, "Debit and Credit".toList, "Particulars".toList],
    [[some ("01/01/2024".toList), some ("5".toList), some ("x".toList)]]⟩]

/-- C2: the claim "normalization never raises" fails — on
`rtSharedAmount` the label "Debit and Credit" is selected by both
amount roles, `rename_map` (a dict) maps it to `"Credit"` only, the
doubled selection leaves two `Credit` columns, and the coercion loop's
`df["Credit"].astype(str).str` is an attribute access on a DataFrame:
an uncaught `AttributeError` (the `try` block ends before
`pd.concat`).  The model evaluates the code to that error at this
input. -/
theorem c2_normalize_raises :
    process_pdf_data rtSharedAmount =
      Except.error ("AttributeError: duplicated amount column after rename".toList) := by
  rfl

/-- Input whose normalization has a Date and a Reference column but no
amount columns (header `["Date", "Particulars"]`). -/
def rtDateOnly : RawTable :=
  [⟨[ "Date".toList, "Particulars".toList],
    [[some ("01/01/2024".toList), some ("A".toList)]]⟩]

/-- The store `rtDateOnly` normalizes to. -/
def stDateOnly : Store :=
  ⟨true, false, false, true, [⟨some ⟨2024, 1, 1⟩, 0, 0, some ("A".toList)⟩]⟩

/-- C6: the totality claim fails — on a store with a Date column but
no Debit/Credit columns (produced by `rtDateOnly`, a valid input), the
monthly and weekly summaries run
`df.groupby(...)[["Debit", "Credit"]].sum()` unguarded and raise
`KeyError` instead of returning an empty result. -/
theorem c6_summary_raises :
    process_pdf_data rtDateOnly = Except.ok stDateOnly
    ∧ get_monthly_summary stDateOnly =
        Except.error ("KeyError: Columns not found: Debit, Credit".toList)
    ∧ get_weekly_summary stDateOnly =
        Except.error ("KeyError: Columns not found: Debit, Credit".toList) := by
  refine ⟨by rfl, by rfl, by rfl⟩

/-- C3: Debit/Credit coercion — the value is the decimal parse of the
raw cell with commas removed and whitespace stripped; a missing or
unparsable cell gives exactly 0 (never an absent value: the field is
total); and the spec's scenario row normalizes to
`{Date: 2024-01-01, Debit: 1200.50, Credit: 0, Reference: "Coffee Shop"}`. -/
theorem c3_amount_coercion :
    (∀ (s0 : Str) (q : ℚ),
      parseDecimal (trimS (stripCommas s0)) = some q → coerceAmount (some s0) = q)
    ∧ (∀ s0 : Str,
        parseDecimal (trimS (stripCommas s0)) = none → coerceAmount (some s0) = 0)
    ∧ coerceAmount none = 0
    ∧ process_pdf_data rtScenario = Except.ok storeScenario := by
  refine ⟨?_, ?_, rfl, by rfl⟩
  · intro s0 q h
    simp [coerceAmount, h]
  · intro s0 h
    simp [coerceAmount, h]

/-- Witness for C3: the scenario's Debit cell coerces to 1200.50. -/
theorem c3_amount_coercion_witness :
    coerceAmount (some ("1,200.50".toList)) = 2401 / 2 :=
  c3_amount_coercion.1 ("1,200.50".toList) (2401 / 2) (by rfl)

/-- Helper: `splitOnTok` never returns an empty chunk list. -/
theorem splitOnTok_ne_nil : ∀ l : Str, splitOnTok l ≠ []
  | [] => by simp [splitOnTok]
  | [c] => by simp [splitOnTok]
  | a :: b :: rest => by
    simp only [splitOnTok]
    split
    · simp
    · split
      · simp
      · simp

/-- Helper: a query with no occurrence of `"on"` splits into itself. -/
theorem splitOnTok_of_not_hasOn : ∀ l : Str, hasOn l = false → splitOnTok l = [l]
  | [], _ => rfl
  | [c], _ => rfl
  | a :: b :: rest, h => by
    have h2 : (decide (a = 'o') && decide (b = 'n')) = false ∧
        hasOn (b :: rest) = false := by
      have : ((decide (a = 'o') && decide (b = 'n')) || hasOn (b :: rest)) = false := h
      exact ⟨by cases hx : (decide (a = 'o') && decide (b = 'n')) <;>
          simp [hx] at this ⊢,
        by cases hx : hasOn (b :: rest) <;> simp [hx] at this ⊢⟩
    simp only [splitOnTok, h2.1, Bool.false_eq_true, if_false]
    rw [splitOnTok_of_not_hasOn (b :: rest) h2.2]

/-- Helper: a one-chunk split means the query is the chunk and has no
occurrence of `"on"`. -/
theorem splitOnTok_eq_single :
    ∀ (l m : Str), splitOnTok l = [m] → m = l ∧ hasOn l = false
  | [], m, h => by
    simp [splitOnTok] at h
    simp [h, hasOn]
  | [c], m, h => by
    simp [splitOnTok] at h
    simp [h, hasOn]
  | a :: b :: rest, m, h => by
    by_cases hab : (decide (a = 'o') && decide (b = 'n')) = true
    · simp only [splitOnTok, hab, if_true] at h
      have := splitOnTok_ne_nil rest
      cases hs : splitOnTok rest with
      | nil => exact absurd hs this
      | cons x xs => rw [hs] at h; simp at h
    · have hab2 : (decide (a = 'o') && decide (b = 'n')) = false := by
        cases hx : (decide (a = 'o') && decide (b = 'n'))
        · rfl
        · exact absurd hx hab
      simp only [splitOnTok, hab2, Bool.false_eq_true, if_false] at h
      cases hs : splitOnTok (b :: rest) with
      | nil => exact absurd hs (splitOnTok_ne_nil _)
      | cons h1 t1 =>
        rw [hs] at h
        have ht1 : t1 = [] ∧ m = a :: h1 := by
          cases t1 with
          | nil => simp at h; exact ⟨rfl, h.symm⟩
          | cons z zs => simp at h
        rcases ht1 with ⟨he, hm⟩
        rw [he] at hs
        rcases splitOnTok_eq_single (b :: rest) h1 hs with ⟨hh1, hno⟩
        constructor
        · rw [hm, hh1]
        · have : hasOn (a :: b :: rest) =
              ((decide (a = 'o') && decide (b = 'n')) || hasOn (b :: rest)) := rfl
          rw [this, hab2, hno]
          rfl

/-- Helper: a string with `"on"` spliced in has an occurrence of it. -/
theorem hasOn_append : ∀ (u t : Str), hasOn (u ++ 'o' :: 'n' :: t) = true
  | [], t => by simp [hasOn]
  | [c], t => by simp [hasOn]
  | c1 :: c2 :: u', t => by
    have : (c1 :: c2 :: u') ++ 'o' :: 'n' :: t =
        c1 :: c2 :: (u' ++ 'o' :: 'n' :: t) := rfl
    rw [this]
    have he : hasOn (c1 :: c2 :: (u' ++ 'o' :: 'n' :: t)) =
        ((decide (c1 = 'o') && decide (c2 = 'n')) ||
          hasOn (c2 :: (u' ++ 'o' :: 'n' :: t))) := rfl
    rw [he]
    have : c2 :: (u' ++ 'o' :: 'n' :: t) = (c2 :: u') ++ 'o' :: 'n' :: t := rfl
    rw [this, hasOn_append (c2 :: u') t, Bool.or_true]

/-- Helper: `getLast?` of a non-empty list is `some`. -/
theorem getLast?_cons_isSome : ∀ (y : Str) (ys : List Str),
    ∃ a, (y :: ys).getLast? = some a
  | y, [] => ⟨y, rfl⟩
  | y, z :: zs => by
    rcases getLast?_cons_isSome z zs with ⟨a, ha⟩
    exact ⟨a, by rw [List.getLast?_cons_cons, ha]⟩

/-- Helper: `getLastD` of a cons with a non-empty tail ignores both
the head and the default. -/
theorem getLastD_cons_ne (x : Str) (s : List Str) (hs : s ≠ []) (d1 d2 : Str) :
    (x :: s).getLastD d1 = s.getLastD d2 := by
  cases s with
  | nil => exact absurd rfl hs
  | cons y ys =>
    rcases getLast?_cons_isSome y ys with ⟨a, ha⟩
    rw [List.getLastD_eq_getLast?, List.getLastD_eq_getLast?,
      List.getLast?_cons_cons, ha]
    rfl

/-- Helper: unfolding of the splitter when the head is a separator. -/
theorem splitOnTok_on_cons (t : Str) :
    splitOnTok ('o' :: 'n' :: t) = [] :: splitOnTok t := rfl

/-- Helper: unfolding of the splitter when no separator starts here. -/
theorem splitOnTok_cons₂ (a b : Char) (rest : Str)
    (h : (decide (a = 'o') && decide (b = 'n')) = false) :
    splitOnTok (a :: b :: rest) =
      (match splitOnTok (b :: rest) with
      | [] => [[a]]
      | h1 :: t1 => (a :: h1) :: t1) := by
  simp only [splitOnTok, h, Bool.false_eq_true, if_false]

/-- Helper: the last chunk of `q.split("on")` is exactly the text
after the LAST occurrence of `"on"` in `q`. -/
theorem splitOnTok_getLast :
    ∀ (r t : Str), hasOn t = false →
      (splitOnTok (r ++ 'o' :: 'n' :: t)).getLastD [] = t
  | [], t, ht => by
    rw [List.nil_append, splitOnTok_on_cons, splitOnTok_of_not_hasOn t ht]
    rfl
  | [c], t, ht => by
    have he : ([c] : Str) ++ 'o' :: 'n' :: t = c :: 'o' :: 'n' :: t := rfl
    rw [he, splitOnTok_cons₂ c 'o' ('n' :: t) (by simp),
      splitOnTok_on_cons, splitOnTok_of_not_hasOn t ht]
    rfl
  | c1 :: c2 :: r', t, ht => by
    have he : (c1 :: c2 :: r') ++ 'o' :: 'n' :: t =
        c1 :: c2 :: (r' ++ 'o' :: 'n' :: t) := rfl
    rw [he]
    by_cases h12 : (decide (c1 = 'o') && decide (c2 = 'n')) = true
    · have hc : c1 = 'o' ∧ c2 = 'n' := by simpa using h12
      rw [hc.1, hc.2, splitOnTok_on_cons,
        getLastD_cons_ne [] _ (splitOnTok_ne_nil _) [] []]
      exact splitOnTok_getLast r' t ht
    · have h12f : (decide (c1 = 'o') && decide (c2 = 'n')) = false := by
        cases hx : (decide (c1 = 'o') && decide (c2 = 'n'))
        · rfl
        · exact absurd hx h12
      rw [splitOnTok_cons₂ c1 c2 _ h12f]
      have he2 : c2 :: (r' ++ 'o' :: 'n' :: t) = (c2 :: r') ++ 'o' :: 'n' :: t := rfl
      cases hs : splitOnTok (c2 :: (r' ++ 'o' :: 'n' :: t)) with
      | nil => exact absurd hs (splitOnTok_ne_nil _)
      | cons h1 t1 =>
        cases t1 with
        | nil =>
          rcases splitOnTok_eq_single _ _ hs with ⟨_, hfalse⟩
          rw [he2, hasOn_append (c2 :: r') t] at hfalse
          exact absurd hfalse (by simp)
        | cons z zs =>
          have hne : (z :: zs : List Str) ≠ [] := by simp
          show ((c1 :: h1) :: z :: zs).getLastD [] = t
          rw [getLastD_cons_ne (c1 :: h1) (z :: zs) hne [] [],
            ← getLastD_cons_ne h1 (z :: zs) hne [] [], ← hs, he2]
          exact splitOnTok_getLast (c2 :: r') t ht

/-- Helper: a query containing `"on"` splits into at least two chunks. -/
theorem one_lt_splitOnTok_length (r t : Str) :
    1 < (splitOnTok (r ++ 'o' :: 'n' :: t)).length := by
  cases hs : splitOnTok (r ++ 'o' :: 'n' :: t) with
  | nil => exact absurd hs (splitOnTok_ne_nil _)
  | cons x xs =>
    cases xs with
    | nil =>
      rcases splitOnTok_eq_single _ _ hs with ⟨_, hno⟩
      rw [hasOn_append r t] at hno
      exact absurd hno (by simp)
    | cons y ys => simp

/-- Helper: a metacharacter-free pattern compiles to its sequence of
literal tokens. -/
theorem reParse_of_literal :
    ∀ pat : Str, isLiteralPat pat = true →
      reParse pat = some (pat.map ReTok.lit) := by
  intro pat
  induction pat with
  | nil => intro _; rfl
  | cons c rest ih =>
    intro h
    have hcj := h
    simp only [isLiteralPat, List.all_cons, Bool.and_eq_true] at hcj
    have hdot : ¬(c = '.') := by
      intro he
      have h1 := hcj.1
      rw [he] at h1
      simp at h1
    have hmeta : reMetaOther c = false := by
      have h1 := hcj.1
      cases hx : reMetaOther c
      · rfl
      · rw [hx] at h1; simp at h1
    have hrest : isLiteralPat rest = true := hcj.2
    simp only [reParse, if_neg hdot, hmeta, Bool.false_eq_true, if_false,
      ih hrest, List.map_cons]
    rfl

/-- Helper: a sequence of literal tokens matches at a position exactly
when the pattern is a prefix there. -/
theorem reMatchHere_literal :
    ∀ (pat s : Str), reMatchHere (pat.map ReTok.lit) s = pat.isPrefixOf s := by
  intro pat
  induction pat with
  | nil => intro s; cases s <;> rfl
  | cons a as ih =>
    intro s
    cases s with
    | nil => rfl
    | cons c cs =>
      by_cases hac : a = c
      · subst hac
        simp [reMatchHere, List.isPrefixOf, ih cs]
      · simp [reMatchHere, List.isPrefixOf, hac]

/-- Helper: searching a literal pattern is substring containment —
the host's regex search and the spec's containment agree on
metacharacter-free terms. -/
theorem reSearch_literal :
    ∀ (pat s : Str), reSearch (pat.map ReTok.lit) s = containsSub pat s := by
  intro pat s
  induction s with
  | nil =>
    have h0 : reSearch (pat.map ReTok.lit) [] = reMatchHere (pat.map ReTok.lit) [] := rfl
    rw [h0, reMatchHere_literal]
    cases pat <;> rfl
  | cons c cs ih =>
    have h0 : reSearch (pat.map ReTok.lit) (c :: cs) =
        (reMatchHere (pat.map ReTok.lit) (c :: cs) ||
          reSearch (pat.map ReTok.lit) cs) := rfl
    rw [h0, reMatchHere_literal, ih]
    rfl

/-- Helper: on a metacharacter-free term, `search_reference` succeeds
and returns exactly the spec's substring filter. -/
theorem search_reference_literal :
    ∀ (st : Store) (term : Str), isLiteralPat (lowerS term) = true →
      search_reference st term = Except.ok (spec_searchReference st term) := by
  intro st term h
  by_cases hr : st.hasRef = true
  · simp only [search_reference, spec_searchReference, hr, if_true,
      reParse_of_literal (lowerS term) h]
    congr 1
    apply List.filter_congr
    intro r _
    cases r.ref with
    | none => rfl
    | some x => simp only [reSearch_literal]
  · simp only [Bool.not_eq_true] at hr
    simp [search_reference, spec_searchReference, hr]

/-- C5 (amended): on a lower-cased query matching no fixed menu key
and containing "how much", "spent on" or "spend on", the dispatcher
splits on the literal `"on"` and the stripped text after the LAST
occurrence becomes the search term, which the host matcher interprets
as a regular expression; for a term free of regex metacharacters the
answer is the Debit sum over the rows whose Reference
case-insensitively contains the term; when the query has no `"on"` at
all, the usage hint is reported instead of failing. -/
theorem c5_free_text :
    ∀ (st : Store) (q r t : Str),
      (∀ k ∈ fixedKeys, containsSub k q = false) →
      (containsSub ("how much".toList) q || containsSub ("spent on".toList) q ||
        containsSub ("spend on".toList) q) = true →
      (q = r ++ 'o' :: 'n' :: t → hasOn t = false →
        isLiteralPat (lowerS (trimS t)) = true →
        dispatch st q =
          (if (spec_searchReference st (trimS t)).isEmpty then
            Except.ok (Outcome.noTransactions (trimS t))
          else
            Except.ok (Outcome.spent (trimS t)
              (if st.hasDebit then sumDebits (spec_searchReference st (trimS t))
              else 0))))
      ∧ (hasOn q = false → dispatch st q = Except.ok Outcome.usageHint) := by
  intro st q r t hfix htrig
  have hfind : fixedKeys.find? (fun k => containsSub k q) = none :=
    List.find?_eq_none.mpr (fun k hk => by simp [hfix k hk])
  constructor
  · intro hq ht hlit
    subst hq
    simp only [dispatch, hfind]
    rw [if_pos htrig, if_pos (one_lt_splitOnTok_length r t),
      splitOnTok_getLast r t ht, search_reference_literal st (trimS t) hlit]
  · intro hq0
    simp only [dispatch, hfind]
    rw [if_pos htrig, splitOnTok_of_not_hasOn q hq0]
    norm_num

/-- A store with one groceries transaction. -/
def stFree : Store :=
  ⟨false, true, false, true, [⟨none, 3, 0, some ("Groceries Mart".toList)⟩]⟩

/-- Witness for C5 on the spec's scenario query (a literal term). -/
theorem c5_free_text_witness :
    dispatch stFree ("how much did i spend on groceries".toList) =
      Except.ok (Outcome.spent ("groceries".toList) 3) := by
  have h := (c5_free_text stFree ("how much did i spend on groceries".toList)
      ("how much did i spend ".toList) (" groceries".toList)
      (by decide) (by decide)).1 (by decide) (by decide) (by decide)
  exact h.trans (by rfl)

/-- A store whose single Reference is "abc". -/
def stRegex : Store :=
  ⟨false, true, false, true, [⟨none, 3, 0, some ("abc".toList)⟩]⟩

/-- C5 counterexample: for the query "how much did i spend on a.c"
(no fixed key, trigger present, term "a.c" after the last "on"), the
program's `str.contains` treats `.` as the regex wildcard and matches
the Reference "abc", so it reports 3 spent on "a.c" — yet no Reference
contains "a.c", so the claim's "sum of the Debit column over rows
whose Reference case-insensitively contains the term" (an empty set of
rows here) is violated at this input. -/
theorem c5_counterexample :
    dispatch stRegex ("how much did i spend on a.c".toList) =
      Except.ok (Outcome.spent ("a.c".toList) 3)
    ∧ containsSub (lowerS ("a.c".toList)) (lowerS ("abc".toList)) = false
    ∧ stRegex.rows.filter (fun r =>
        match r.ref with
        | some x => containsSub (lowerS ("a.c".toList)) (lowerS x)
        | none => false) = [] := by
  refine ⟨by rfl, by decide, by decide⟩
